import Mathlib

/-!
Verification development for the compat-chain repository.

The repository's visible source is the CLI layer (`src/cmd/root.go`); the
core ledger/consensus/state engine it invokes (`core`, `types`, `util`
packages) is not part of the visible source, so those components are
modelled from the specification text and the claims are settled against
the model.  The CLI-layer definitions at the end of the file are embedded
directly from `src/cmd/root.go`.
-/

namespace CompatChain

/-- Decidable equality for `Except` results, so that concrete outcomes of
the modelled operations can be evaluated. -/
instance {ε α : Type} [DecidableEq ε] [DecidableEq α] : DecidableEq (Except ε α) :=
  fun x y =>
    match x, y with
    | .ok a, .ok b =>
      if h : a = b then isTrue (by rw [h])
      else isFalse (fun hc => h (by injection hc))
    | .error a, .error b =>
      if h : a = b then isTrue (by rw [h])
      else isFalse (fun hc => h (by injection hc))
    | .ok _, .error _ => isFalse (fun hc => Except.noConfusion hc)
    | .error _, .ok _ => isFalse (fun hc => Except.noConfusion hc)

/-- Addresses are modelled as natural numbers (the byte-string address at
word granularity). -/
abbrev Addr := Nat

/-- Modelled from the spec: an Account record of the State Store — address
maps to (balance, nonce), both non-negative integers (§3 "Account"). -/
structure Account where
  balance : Nat
  nonce : Nat
deriving DecidableEq, Repr

/-- Modelled from the spec: the State Store's address → account-record
mapping (§4.2), as an association list. -/
abbrev StateStore := List (Addr × Account)

/-- Modelled from the spec: `getAccount(address) → (balance, nonce)`,
defaulting to `(0,0)` for unknown addresses (§4.2). -/
def getAccount (st : StateStore) (a : Addr) : Account :=
  match st with
  | [] => ⟨0, 0⟩
  | (b, acc) :: rest => if b = a then acc else getAccount rest a

/-- Modelled from the spec: writing an account record back into the
State Store (accounts are created implicitly on first credit, §3). -/
def setAccount (st : StateStore) (a : Addr) (acc : Account) : StateStore :=
  match st with
  | [] => [(a, acc)]
  | (b, acc0) :: rest =>
    if b = a then (b, acc) :: rest else (b, acc0) :: setAccount rest a acc

/-- Modelled from the spec: the Transaction wire/storage record
{from, to, value, fee, nonce, signature} (§6), fields at word
granularity. -/
structure Transaction where
  sender : Addr
  recipient : Addr
  value : Nat
  fee : Nat
  nonce : Nat
  sig : Nat
deriving DecidableEq, Repr

/-- Modelled from the spec: the error kinds of `applyTransaction`
(§4.2: fails(InsufficientBalance|NonceMismatch)). -/
inductive TxError where
  | insufficientBalance
  | nonceMismatch
deriving DecidableEq, Repr

/-- Modelled from the spec: `applyTransaction(tx) →
success|fails(InsufficientBalance|NonceMismatch)` (§4.2).  The nonce must
equal the sender's current account nonce at application time and
value + fee must not exceed the sender's balance (§3); on success the
sender's balance is debited, its nonce incremented, and the recipient
credited. -/
def applyTransaction (st : StateStore) (tx : Transaction) : Except TxError StateStore :=
  let acc := getAccount st tx.sender
  if tx.nonce ≠ acc.nonce then .error .nonceMismatch
  else if acc.balance < tx.value + tx.fee then .error .insufficientBalance
  else
    let st1 := setAccount st tx.sender ⟨acc.balance - (tx.value + tx.fee), acc.nonce + 1⟩
    let racc := getAccount st1 tx.recipient
    .ok (setAccount st1 tx.recipient ⟨racc.balance + tx.value, racc.nonce⟩)

/-- Modelled from the spec: sequential application of a list of
transactions against a state snapshot (§4.3 validation step), stopping at
the first failure. -/
def applySeq (st : StateStore) (txs : List Transaction) : Except TxError StateStore :=
  match txs with
  | [] => .ok st
  | tx :: rest =>
    match applyTransaction st tx with
    | .ok st' => applySeq st' rest
    | .error e => .error e

/-- Modelled from the spec: `applyTransactionsAtomically(sequence) →
success|fails(...)` — either all transactions in the sequence apply or
none do; on failure the snapshot taken before the call is restored
(§4.2). -/
def applyTransactionsAtomically (st : StateStore) (txs : List Transaction) :
    StateStore × Option TxError :=
  match applySeq st txs with
  | .ok st' => (st', none)
  | .error e => (st, some e)

/-- Modelled from the spec: the deterministic fixed-size hash over a
canonical byte sequence (§4.1 `hash(bytes) → fixed-size digest`), modelled
as an FNV-style fold into a 64-bit word. -/
def modelHash (bytes : List Nat) : Nat :=
  List.foldl (fun h w => ((h + w + 1) * 1099511628211) % 2 ^ 64)
    14695981039346656037 bytes

/-- Modelled from the spec: `deriveAddress(publicKey) → address` (§4.1);
keys and addresses are words and derivation is the identity in the model. -/
def deriveAddress (key : Nat) : Addr := key

/-- Canonical encoding of a transaction's signed content (all fields but
the signature), at word granularity. -/
def encodeTxUnsigned (tx : Transaction) : List Nat :=
  [tx.sender, tx.recipient, tx.value, tx.fee, tx.nonce]

/-- Modelled from the spec: `sign(privateKey, bytes) → signature`
(§4.1). -/
def signData (key : Nat) (bytes : List Nat) : Nat :=
  modelHash (deriveAddress key :: bytes)

/-- Modelled from the spec: `verify(publicKeyOrAddress, bytes, signature)
→ boolean` (§4.1); a transaction signature must verify against the sender
address (§3). -/
def verifyTxSig (tx : Transaction) : Bool :=
  tx.sig = modelHash (tx.sender :: encodeTxUnsigned tx)

/-- Modelled from the spec: the BlockHeader record — number, parent hash,
timestamp, proof-of-work nonce, declared difficulty target, payload data,
aggregate transaction-set commitment, miner identity (§3). -/
structure BlockHeader where
  number : Nat
  parentHash : Nat
  timestamp : Nat
  powNonce : Nat
  difficulty : Nat
  data : List Nat
  txRoot : Nat
  miner : Addr
deriving DecidableEq, Repr

/-- Modelled from the spec: Block = header + ordered sequence of
Transactions (§3). -/
structure Block where
  header : BlockHeader
  txs : List Transaction
deriving DecidableEq, Repr

/-- Word-list encoding of opaque payload bytes: length-prefixed. -/
def encBytes (bs : List Nat) : List Nat := bs.length :: bs

/-- Modelled from the spec: `canonical-encode(BlockHeader) → bytes`
(§4.1), at word granularity. -/
def encodeHeader (h : BlockHeader) : List Nat :=
  [h.number, h.parentHash, h.timestamp, h.powNonce, h.difficulty]
    ++ encBytes h.data ++ [h.txRoot, h.miner]

/-- Modelled from the spec: the derived hash — a deterministic hash over
the header's canonical byte encoding; this hash is the block's identity
and the value children reference as parent hash (§3). -/
def deriveHash (b : Block) : Nat := modelHash (encodeHeader b.header)

/-- Modelled from the spec: the numeric threshold derived from a declared
difficulty (§3, GLOSSARY "Difficulty"). -/
def powTarget (difficulty : Nat) : Nat := 2 ^ 64 / 2 ^ difficulty

/-- Modelled from the spec: the proof-of-work condition — the hash's
numeric value is below the threshold derived from the declared
difficulty (§3). -/
def satisfiesDifficulty (hash difficulty : Nat) : Bool :=
  hash < powTarget difficulty

/-- Modelled from the spec: the ValidationError taxonomy (§7). -/
inductive ValidationError where
  | badParentLink
  | numberMismatch
  | insufficientWork
  | badSignature
  | insufficientBalance
  | nonceMismatch
  | staleTimestamp
deriving DecidableEq, Repr

/-- How a transaction-application failure is reported by validation
(§7 taxonomy). -/
def txErrToValidation : TxError → ValidationError
  | .insufficientBalance => .insufficientBalance
  | .nonceMismatch => .nonceMismatch

/-- Modelled from the spec: `Validate(block, parentBlock, stateStoreView)
→ valid|fails(kind)` (§4.3) — checks, in order: parent hash linkage,
number = parent number + 1, proof-of-work against the declared difficulty,
every transaction signature, sequential transaction application against a
state snapshot, timestamp not earlier than the parent's.  The first
failing check determines the error kind.  On success the sandbox state
produced by the application step is returned so the caller can commit it;
the view passed in is never mutated. -/
def validateBlock (b parent : Block) (st : StateStore) : Except ValidationError StateStore :=
  if b.header.parentHash ≠ deriveHash parent then .error .badParentLink
  else if b.header.number ≠ parent.header.number + 1 then .error .numberMismatch
  else if ¬ satisfiesDifficulty (deriveHash b) b.header.difficulty then .error .insufficientWork
  else if ¬ b.txs.all verifyTxSig then .error .badSignature
  else
    match applySeq st b.txs with
    | .error e => .error (txErrToValidation e)
    | .ok st' =>
      if b.header.timestamp < parent.header.timestamp then .error .staleTimestamp
      else .ok st'

/-- Modelled from the spec: the Chain/Ledger Manager's owned state — the
canonical head and the State Store (§4.5, §3 "Chain Head"). -/
structure Chain where
  head : Block
  state : StateStore
deriving DecidableEq, Repr

/-- Modelled from the spec: the Manager's per-candidate-block state
machine `Received → Validating → {Accepted, Rejected}` (§4.5).  On
Accepted the transactions are applied to the State Store and the head
advances; on Rejected the block is discarded and neither state nor head
is mutated. -/
def processBlock (c : Chain) (b : Block) : Chain × Except ValidationError Block :=
  match validateBlock b c.head c.state with
  | .error e => (c, .error e)
  | .ok st' => ({ head := b, state := st' }, .ok b)

/-- Modelled from the spec: the outcome of the Mine operation —
`Block|cancelled` (§4.3); cancellation is a distinguished normal value,
not an error (§5, §7). -/
inductive MineResult where
  | found (b : Block)
  | cancelled
deriving DecidableEq, Repr

/-- Modelled from the spec: the proof-of-work mining loop (§4.3 Mine) —
repeatedly tries nonces, recomputes the header hash and checks it against
the difficulty target, polling the cancellation signal at every
iteration.  `cancel i` is the cancellation signal as observed at
iteration `i`; `fuel` bounds how many iterations the model unfolds
(`none` means the loop is still running after `fuel` iterations). -/
def mineFrom (hdr : BlockHeader) (txs : List Transaction) (cancel : Nat → Bool) :
    Nat → Nat → Option MineResult
  | _, 0 => none
  | i, fuel + 1 =>
    if cancel i then some .cancelled
    else
      let cand : BlockHeader := { hdr with powNonce := i }
      if satisfiesDifficulty (modelHash (encodeHeader cand)) hdr.difficulty then
        some (.found ⟨cand, txs⟩)
      else
        mineFrom hdr txs cancel (i + 1) fuel

/-- Modelled from the spec: the failure kinds of
`addBlock(data, transactions, cancellationSignal, signerKey) →
Block|fails(kind)` (§6): a validation rejection, or the mining attempt
having been cancelled by the cancellation signal. -/
inductive AddBlockFailure where
  | validation (e : ValidationError)
  | mineCancelled
deriving DecidableEq, Repr

/-- Modelled from the spec: the candidate header assembled on top of the
current head before mining — next number, parent hash of the head,
configured difficulty, the miner identity of the signer key, and a
commitment to the transaction set (§3 BlockHeader, §4.3 Mine). -/
def candidateHeader (c : Chain) (data : List Nat) (txs : List Transaction)
    (signerKey difficulty now : Nat) : BlockHeader :=
  { number := c.head.header.number + 1
    parentHash := deriveHash c.head
    timestamp := now
    powNonce := 0
    difficulty := difficulty
    data := data
    txRoot := modelHash (txs.map Transaction.sig)
    miner := deriveAddress signerKey }

/-- Modelled from the spec: the core-facing `addBlock(data, transactions,
cancellationSignal, signerKey)` operation invoked by the CLI layer
(§6): assemble a candidate header on top of the current head, mine it,
then run the accepted-block path (validate → apply-state → advance-head).
`now` is the wall-clock timestamp and `fuel` bounds the mining loop;
`none` means mining is still running after `fuel` iterations. -/
def addBlock (c : Chain) (data : List Nat) (txs : List Transaction)
    (cancel : Nat → Bool) (signerKey : Nat) (difficulty now fuel : Nat) :
    Option (Chain × Except AddBlockFailure Block) :=
  match mineFrom (candidateHeader c data txs signerKey difficulty now) txs cancel 0 fuel with
  | none => none
  | some .cancelled => some (c, .error .mineCancelled)
  | some (.found b) =>
    match processBlock c b with
    | (c', .ok b') => some (c', .ok b')
    | (c', .error e) => some (c', .error (.validation e))

/-- Discriminates the two shapes an `addBlock` result can take. -/
def exceptIsOk : Except AddBlockFailure Block → Bool
  | .ok _ => true
  | .error _ => false

/-- Modelled from the spec: `canonical-encode(Transaction) → bytes`
(§4.1, §6 transaction wire record {from, to, value, fee, nonce,
signature}), at word granularity. -/
def encodeTx (tx : Transaction) : List Nat :=
  [tx.sender, tx.recipient, tx.value, tx.fee, tx.nonce, tx.sig]

/-- Decoder for the transaction wire record: consumes one transaction
from the front of a word stream. -/
def decTx (l : List Nat) : Option (Transaction × List Nat) :=
  match l with
  | s :: r :: v :: f :: n :: g :: rest => some (⟨s, r, v, f, n, g⟩, rest)
  | _ => none

/-- Decoder for a length-prefixed opaque payload. -/
def decBytes (l : List Nat) : Option (List Nat × List Nat) :=
  match l with
  | [] => none
  | len :: rest =>
    if len ≤ rest.length then some (rest.take len, rest.drop len) else none

/-- Decoder for the block-header wire fields, mirroring
`encodeHeader`. -/
def decHeader (l : List Nat) : Option (BlockHeader × List Nat) :=
  match l with
  | n :: p :: t :: pw :: d :: rest =>
    match decBytes rest with
    | none => none
    | some (bs, rest') =>
      match rest' with
      | tr :: m :: rest'' => some (⟨n, p, t, pw, d, bs, tr, m⟩, rest'')
      | _ => none
  | _ => none

/-- Decoder for a counted sequence of transactions. -/
def decTxs : Nat → List Nat → Option (List Transaction × List Nat)
  | 0, l => some ([], l)
  | k + 1, l =>
    match decTx l with
    | none => none
    | some (tx, l1) =>
      match decTxs k l1 with
      | none => none
      | some (txs, l2) => some (tx :: txs, l2)

/-- Modelled from the spec: the canonical encoding of a whole Block —
header fields followed by the counted, ordered transaction sequence
(§6 block wire record). -/
def encodeBlock (b : Block) : List Nat :=
  encodeHeader b.header ++ b.txs.length :: (b.txs.map encodeTx).flatten

/-- Decoder for the Block wire record: decodes a full canonical
encoding, rejecting trailing garbage. -/
def decodeBlock (l : List Nat) : Option Block :=
  match decHeader l with
  | none => none
  | some (h, rest) =>
    match rest with
    | [] => none
    | count :: rest' =>
      match decTxs count rest' with
      | some (txs, []) => some ⟨h, txs⟩
      | _ => none

/-- Decoder for a full canonical Transaction encoding, rejecting
trailing garbage. -/
def decodeTransaction (l : List Nat) : Option Transaction :=
  match decTx l with
  | some (tx, []) => some tx
  | _ => none

/-! ## The CLI layer, embedded from `src/cmd/root.go` -/

/-- Error classification of Go's `strconv.ParseInt`: `badInput` is a
syntax error (the string is not a well-formed integer), `rangeErr` an
out-of-range value. -/
inductive ParseIntError where
  | badInput
  | rangeErr
deriving DecidableEq, Repr

/-- Accumulator loop of decimal digit parsing: fails on the first
non-digit character. -/
def digitsAcc : List Char → Nat → Option Nat
  | [], acc => some acc
  | c :: rest, acc =>
    if c.isDigit then digitsAcc rest (acc * 10 + (c.toNat - 48)) else none

/-- Parses a non-empty all-digit string to a natural number; `none` on an
empty string or any non-digit character. -/
def digitsToNat (cs : List Char) : Option Nat :=
  match cs with
  | [] => none
  | _ => digitsAcc cs 0

/-- Sign splitter of Go's integer parsing: consumes an optional leading
sign character. -/
def goParseSign (cs : List Char) : Bool × List Char :=
  match cs with
  | '-' :: rest => (true, rest)
  | '+' :: rest => (false, rest)
  | l => (false, l)

/-- The signed value before the range check: negated when a leading minus
sign was consumed. -/
def goSignedVal (neg : Bool) (n : Nat) : Int :=
  if neg then -(n : Int) else (n : Int)

/-- Go's `strconv.ParseInt(s, 10, 0)` (bitSize 0 is the 64-bit platform
int): optional sign, decimal digits; on a syntax error the returned value
is 0, on a range error it is clamped to MinInt64/MaxInt64.  Returns the
(value, error) pair exactly as the Go call does. -/
def goParseInt (s : String) : Int × Option ParseIntError :=
  match digitsToNat (goParseSign s.data).2 with
  | none => (0, some .badInput)
  | some n =>
    let v : Int := goSignedVal (goParseSign s.data).1 n
    if v < -(2 ^ 63) then (-(2 ^ 63), some .rangeErr)
    else if v > 2 ^ 63 - 1 then (2 ^ 63 - 1, some .rangeErr)
    else (v, none)

/-- The node configuration assembled by `startBlockchainNode` in
`src/cmd/root.go` (the fields derived from the node id; `home` stands for
`os.UserHomeDir()`). -/
structure NodeConfig where
  consensusDifficulty : Nat
  consensusName : String
  dbDir : String
  stateDbDir : String
  minFee : Nat
  rpcPort : String
  p2pPort : String
  blockTime : Nat
  signerKeyHex : String
  mine : Bool
deriving DecidableEq, Repr

/-- The configuration built by `startBlockchainNode(nodeId)` in
`src/cmd/root.go` (lines 167-188): every id-dependent field concatenates
`fmt.Sprint(nodeId)` onto a fixed base string. -/
def startNodeConfig (home : String) (nodeId : Int) : NodeConfig :=
  { consensusDifficulty := 20
    consensusName := "pow"
    dbDir := home ++ "/.compact-chain/db" ++ toString nodeId
    stateDbDir := home ++ "/.compact-chain/statedb" ++ toString nodeId
    minFee := 100
    rpcPort := ":1711" ++ toString nodeId
    p2pPort := ":6060" ++ toString nodeId
    blockTime := 4
    signerKeyHex := "c3fc038a9abc0f483e2e1f8a0b4db676bce3eaebd7d9afc68e1e7e28ca8738a"
      ++ toString nodeId
    mine := true }

/-- Outcome of running the `start` command's `Run` function: either the
node is started with some id, or the Go runtime aborts with an
index-out-of-range panic, or (hypothetically) a usage error is reported
to the user — the last never happens in the code. -/
inductive StartRunOutcome where
  | started (nodeId : Int)
  | indexOutOfRange
  | usageError
deriving DecidableEq, Repr

/-- The `start` command's `Run` function (`src/cmd/root.go` lines 49-53):
it indexes `args[0]` unconditionally — out-of-range aborts the process —
and discards the error of `strconv.ParseInt`, passing whatever value was
returned on to `startBlockchainNode`. -/
def startCmdRun (args : List String) : StartRunOutcome :=
  match args with
  | [] => .indexOutOfRange
  | a :: _ => .started (goParseInt a).1

/-! ## Concrete demonstration inputs (used by witness theorems) -/

/-- The wire record of a Block (§6): the header and transaction fields
together with the transmitted derived hash. -/
structure WireBlock where
  number : Nat
  parentHash : Nat
  timestamp : Nat
  powNonce : Nat
  difficulty : Nat
  data : List Nat
  txRoot : Nat
  miner : Addr
  txs : List Transaction
  derivedHash : Nat
deriving DecidableEq, Repr

/-- Builds the wire record of a block, filling `derivedHash` with the
sender-side derived hash. -/
def blockToWire (b : Block) : WireBlock :=
  ⟨b.header.number, b.header.parentHash, b.header.timestamp, b.header.powNonce,
   b.header.difficulty, b.header.data, b.header.txRoot, b.header.miner,
   b.txs, deriveHash b⟩

/-- Recomputes the derived hash of a wire record from its other fields,
as a receiving node does. -/
def wireRecompute (w : WireBlock) : Nat :=
  deriveHash ⟨⟨w.number, w.parentHash, w.timestamp, w.powNonce, w.difficulty,
               w.data, w.txRoot, w.miner⟩, w.txs⟩

/-- Boolean sender test, used to select a sender's transactions. -/
def senderIs (a : Addr) (t : Transaction) : Bool := t.sender == a

/-- A cancellation signal that is already set at every poll. -/
def alwaysCancel : Nat → Bool := fun _ => true

/-- A cancellation signal that never fires. -/
def neverCancel : Nat → Bool := fun _ => false

/-- Builds a transaction correctly signed by its sender (the model's
`sign` applied to the canonical unsigned encoding). -/
def mkTx (s r v f n : Nat) : Transaction :=
  ⟨s, r, v, f, n, signData s (encodeTxUnsigned ⟨s, r, v, f, n, 0⟩)⟩

/-- A genesis block with number 0. -/
def demoGenesis : Block := ⟨⟨0, 0, 0, 0, 0, [], 0, 0⟩, []⟩

/-- A chain whose head is the genesis block and whose state is empty. -/
def demoChain : Chain := ⟨demoGenesis, []⟩

/-- A state with one funded account: address 1 holds balance 1000,
nonce 0. -/
def demoFunded : StateStore := [(1, ⟨1000, 0⟩)]

/-- Candidate with a wrong parent hash. -/
def demoBadLink : Block := ⟨⟨1, 0, 0, 0, 0, [], 0, 0⟩, []⟩

/-- Candidate with a correct parent link but the wrong number. -/
def demoBadNumber : Block := ⟨⟨5, deriveHash demoGenesis, 0, 0, 0, [], 0, 0⟩, []⟩

/-- Candidate whose declared difficulty 64 its hash does not satisfy. -/
def demoLowWork : Block := ⟨⟨1, deriveHash demoGenesis, 0, 0, 64, [], 0, 0⟩, []⟩

/-- Candidate carrying a transaction with an invalid signature. -/
def demoBadSig : Block :=
  ⟨⟨1, deriveHash demoGenesis, 0, 0, 0, [], 0, 0⟩, [⟨1, 2, 3, 4, 5, 6⟩]⟩

/-- Candidate carrying a correctly signed transaction whose nonce skips
ahead of the sender's account nonce. -/
def demoBadNonce : Block :=
  ⟨⟨1, deriveHash demoGenesis, 0, 0, 0, [], 0, 0⟩, [mkTx 1 2 3 4 1]⟩

/-- A parent block with timestamp 5. -/
def demoLateParent : Block := ⟨⟨0, 0, 5, 0, 0, [], 0, 0⟩, []⟩

/-- Candidate on top of `demoLateParent` whose timestamp moves
backwards. -/
def demoStaleTs : Block := ⟨⟨1, deriveHash demoLateParent, 0, 0, 0, [], 0, 0⟩, []⟩

/-- Candidate that passes every validation check over the empty state. -/
def demoGood : Block := ⟨⟨1, deriveHash demoGenesis, 7, 0, 0, [], 0, 0⟩, []⟩

/-- The result of one successful `addBlock` call on the demo chain
(difficulty 0, so the first nonce satisfies the target). -/
def demoAddOut : Option (Chain × Except AddBlockFailure Block) :=
  addBlock demoChain [1, 2] [] neverCancel 7 0 0 1

/-- The chain after the demo `addBlock` call. -/
def demoChain1 : Chain := (demoAddOut.getD (demoChain, .error .mineCancelled)).1

/-- The block accepted by the demo `addBlock` call. -/
def demoBlock1 : Block := demoChain1.head

/-- A block exercising every wire-encoding field class. -/
def demoWireInput : Block :=
  ⟨⟨1, 2, 3, 4, 5, [9, 9], 6, 7⟩, [⟨1, 2, 3, 4, 5, 6⟩, mkTx 1 2 3 4 0]⟩

/-- The successful result pair of the demo `addBlock` call. -/
def demoRes : Chain × Except AddBlockFailure Block :=
  (demoChain1, Except.ok demoBlock1)

/-! ## Helper lemmas -/

theorem getAccount_set_same (st : StateStore) (a : Addr) (acc : Account) :
    getAccount (setAccount st a acc) a = acc := by
  induction st with
  | nil => simp [setAccount, getAccount]
  | cons p rest ih =>
    obtain ⟨b, acc0⟩ := p
    by_cases hb : b = a
    · simp [setAccount, getAccount, hb]
    · simp [setAccount, getAccount, hb, ih]

theorem getAccount_set_ne (st : StateStore) (a a' : Addr) (acc : Account)
    (h : a ≠ a') : getAccount (setAccount st a acc) a' = getAccount st a' := by
  induction st with
  | nil => simp [setAccount, getAccount, h]
  | cons p rest ih =>
    obtain ⟨b, acc0⟩ := p
    by_cases hb : b = a
    · subst hb
      simp [setAccount, getAccount, h]
    · by_cases hb' : b = a'
      · simp [setAccount, getAccount, hb, hb', Ne.symm h]
      · simp [setAccount, getAccount, hb, hb', ih]

theorem applyTransaction_nonceMismatch (st : StateStore) (tx : Transaction)
    (h : tx.nonce ≠ (getAccount st tx.sender).nonce) :
    applyTransaction st tx = .error .nonceMismatch := by
  simp [applyTransaction, h]

theorem applyTransaction_ok_nonce_eq (st : StateStore) (tx : Transaction)
    (st' : StateStore) (h : applyTransaction st tx = .ok st') :
    tx.nonce = (getAccount st tx.sender).nonce := by
  by_contra hn
  rw [applyTransaction_nonceMismatch st tx hn] at h
  exact Except.noConfusion h

theorem applyTransaction_ok_nonces (st : StateStore) (tx : Transaction)
    (st' : StateStore) (h : applyTransaction st tx = .ok st') (a : Addr) :
    (getAccount st' a).nonce =
      if a = tx.sender then (getAccount st a).nonce + 1
      else (getAccount st a).nonce := by
  simp only [applyTransaction] at h
  split at h
  · exact Except.noConfusion h
  split at h
  · exact Except.noConfusion h
  injection h with h
  subst h
  by_cases hr : tx.recipient = a
  · subst hr
    rw [getAccount_set_same]
    by_cases hs : tx.recipient = tx.sender
    · simp [hs, getAccount_set_same]
    · rw [getAccount_set_ne _ _ _ _ (fun he => hs he.symm)]
      simp [hs]
  · rw [getAccount_set_ne _ _ _ _ hr]
    by_cases hs : a = tx.sender
    · subst hs
      rw [getAccount_set_same]
      simp
    · rw [getAccount_set_ne _ _ _ _ (fun he => hs he.symm)]
      simp [hs]

theorem applySeq_append (st : StateStore) (l1 l2 : List Transaction) :
    applySeq st (l1 ++ l2) =
      match applySeq st l1 with
      | .ok st1 => applySeq st1 l2
      | .error e => .error e := by
  induction l1 generalizing st with
  | nil => simp [applySeq]
  | cons tx rest ih =>
    simp only [List.cons_append, applySeq]
    cases applyTransaction st tx <;> simp [ih]

theorem applySeq_ok_nonces (txs : List Transaction) :
    ∀ st st', applySeq st txs = .ok st' → ∀ a : Addr,
      (txs.filter (senderIs a)).map Transaction.nonce
        = List.range' (getAccount st a).nonce
            ((txs.filter (senderIs a)).length) := by
  induction txs with
  | nil => intro st st' h a; simp
  | cons tx rest ih =>
    intro st st' h a
    simp only [applySeq] at h
    cases htx : applyTransaction st tx with
    | error e => rw [htx] at h; exact Except.noConfusion h
    | ok st1 =>
      rw [htx] at h
      have hnonces := applyTransaction_ok_nonces st tx st1 htx a
      by_cases hs : tx.sender = a
      · have hfil : (tx :: rest).filter (senderIs a)
            = tx :: rest.filter (senderIs a) := by
          simp [List.filter_cons, senderIs, hs]
        rw [hfil]
        have heq : tx.nonce = (getAccount st a).nonce := by
          rw [← hs]; exact applyTransaction_ok_nonce_eq st tx st1 htx
        have hrest := ih st1 st' h a
        rw [hs] at hnonces
        simp only [if_pos rfl] at hnonces
        simp only [List.map, List.length_cons, List.range'_succ]
        rw [heq, hrest, hnonces]
        simp
      · have hfil : (tx :: rest).filter (senderIs a)
            = rest.filter (senderIs a) := by
          simp [List.filter_cons, senderIs, hs]
        rw [hfil]
        have hrest := ih st1 st' h a
        rw [if_neg (fun he => hs he.symm)] at hnonces
        rw [hrest, hnonces]

theorem mineFrom_found_shape (hdr : BlockHeader) (txs : List Transaction)
    (cancel : Nat → Bool) :
    ∀ fuel i b, mineFrom hdr txs cancel i fuel = some (.found b) →
      b.txs = txs ∧ b.header.number = hdr.number
        ∧ b.header.parentHash = hdr.parentHash
        ∧ b.header.timestamp = hdr.timestamp
        ∧ b.header.difficulty = hdr.difficulty := by
  intro fuel
  induction fuel with
  | zero => intro i b h; exact Option.noConfusion h
  | succ fuel ih =>
    intro i b h
    simp only [mineFrom] at h
    split at h
    · injection h with h; exact MineResult.noConfusion h
    split at h
    · injection h with h
      injection h with h
      subst h
      exact ⟨rfl, rfl, rfl, rfl, rfl⟩
    · exact ih (i + 1) b h

theorem goParseInt_badInput_val (s : String)
    (h : (goParseInt s).2 = some ParseIntError.badInput) :
    (goParseInt s).1 = 0 := by
  unfold goParseInt at *
  cases hd : digitsToNat (goParseSign s.data).2 with
  | none => rfl
  | some n =>
    rw [hd] at h
    simp only at h
    split at h
    · simp at h
    split at h
    · simp at h
    · simp at h

theorem decTx_encodeTx (tx : Transaction) (rest : List Nat) :
    decTx (encodeTx tx ++ rest) = some (tx, rest) := rfl

theorem decBytes_encBytes (bs rest : List Nat) :
    decBytes (encBytes bs ++ rest) = some (bs, rest) := by
  simp only [encBytes, List.cons_append, decBytes]
  rw [if_pos (by simp)]
  rw [List.take_left, List.drop_left]

theorem decHeader_encodeHeader (h : BlockHeader) (rest : List Nat) :
    decHeader (encodeHeader h ++ rest) = some (h, rest) := by
  simp only [encodeHeader, List.append_assoc, List.cons_append, List.nil_append,
    decHeader]
  rw [decBytes_encBytes]

theorem decTxs_encoded (txs : List Transaction) (rest : List Nat) :
    decTxs txs.length ((txs.map encodeTx).flatten ++ rest) = some (txs, rest) := by
  induction txs with
  | nil => simp [decTxs]
  | cons tx more ih =>
    simp only [List.map, List.flatten, List.length_cons, List.append_assoc, decTxs]
    rw [decTx_encodeTx]
    simp only []
    rw [ih]

theorem processBlock_ok_head (c : Chain) (b : Block) (c' : Chain) (b' : Block)
    (h : processBlock c b = (c', .ok b')) : c'.head = b' ∧ b' = b := by
  unfold processBlock at h
  cases hv : validateBlock b c.head c.state with
  | error e =>
    rw [hv] at h
    injection h with h1 h2
    exact Except.noConfusion h2
  | ok st' =>
    rw [hv] at h
    injection h with h1 h2
    injection h2 with h2
    subst h1
    subst h2
    exact ⟨rfl, rfl⟩

theorem processBlock_error_unchanged (c : Chain) (b : Block) (c' : Chain)
    (e : ValidationError) (h : processBlock c b = (c', .error e)) : c' = c := by
  unfold processBlock at h
  cases hv : validateBlock b c.head c.state with
  | error e' =>
    rw [hv] at h
    injection h with h1 h2
    exact h1.symm
  | ok st' =>
    rw [hv] at h
    injection h with h1 h2
    exact Except.noConfusion h2

/-! ## Claim theorems -/

/-- Claim C1: transaction application is atomic — if any transaction in a
sequence fails, the State Store (every balance and nonce) is exactly what
it was before the call; likewise a block rejected during validation
leaves both state and head unchanged. -/
theorem atomic_apply_rollback :
    (∀ (st : StateStore) (txs : List Transaction) (e : TxError),
       (applyTransactionsAtomically st txs).2 = some e →
       (applyTransactionsAtomically st txs).1 = st ∧
       ∀ a : Addr,
         getAccount (applyTransactionsAtomically st txs).1 a = getAccount st a)
    ∧ (∀ (c : Chain) (b : Block) (e : ValidationError),
       (processBlock c b).2 = .error e →
       (processBlock c b).1 = c) := by
  constructor
  · intro st txs e h
    cases hs : applySeq st txs with
    | ok st' => simp [applyTransactionsAtomically, hs] at h
    | error e' =>
      refine ⟨?_, fun a => ?_⟩
      · simp [applyTransactionsAtomically, hs]
      · simp [applyTransactionsAtomically, hs]
  · intro c b e h
    cases hv : validateBlock b c.head c.state with
    | error e' => simp [processBlock, hv]
    | ok st' => simp [processBlock, hv] at h

theorem atomic_apply_rollback_witness :
    (applyTransactionsAtomically [] [⟨1, 2, 3, 4, 1, 0⟩]).1 = ([] : StateStore)
    ∧ (processBlock demoChain demoBadLink).1 = demoChain :=
  ⟨(atomic_apply_rollback.1 [] [⟨1, 2, 3, 4, 1, 0⟩] .nonceMismatch (by decide)).1,
   atomic_apply_rollback.2 demoChain demoBadLink .badParentLink (by decide)⟩

/-- Claim C2: Validate performs its checks in the specified order —
parent hash linkage, number = parent number + 1, proof-of-work against
the declared difficulty, every transaction signature, sequential
transaction application, timestamp not earlier than the parent's — the
first failing check determines the reported error kind, and a rejected
candidate never mutates the live State Store or head. -/
theorem validate_check_order :
    ∀ (b p : Block) (st : StateStore),
    (b.header.parentHash ≠ deriveHash p →
       validateBlock b p st = .error .badParentLink)
    ∧ (b.header.parentHash = deriveHash p →
       b.header.number ≠ p.header.number + 1 →
       validateBlock b p st = .error .numberMismatch)
    ∧ (b.header.parentHash = deriveHash p →
       b.header.number = p.header.number + 1 →
       satisfiesDifficulty (deriveHash b) b.header.difficulty = false →
       validateBlock b p st = .error .insufficientWork)
    ∧ (b.header.parentHash = deriveHash p →
       b.header.number = p.header.number + 1 →
       satisfiesDifficulty (deriveHash b) b.header.difficulty = true →
       b.txs.all verifyTxSig = false →
       validateBlock b p st = .error .badSignature)
    ∧ (∀ e : TxError, b.header.parentHash = deriveHash p →
       b.header.number = p.header.number + 1 →
       satisfiesDifficulty (deriveHash b) b.header.difficulty = true →
       b.txs.all verifyTxSig = true →
       applySeq st b.txs = .error e →
       validateBlock b p st = .error (txErrToValidation e))
    ∧ (∀ st' : StateStore, b.header.parentHash = deriveHash p →
       b.header.number = p.header.number + 1 →
       satisfiesDifficulty (deriveHash b) b.header.difficulty = true →
       b.txs.all verifyTxSig = true →
       applySeq st b.txs = .ok st' →
       b.header.timestamp < p.header.timestamp →
       validateBlock b p st = .error .staleTimestamp)
    ∧ (∀ st' : StateStore, b.header.parentHash = deriveHash p →
       b.header.number = p.header.number + 1 →
       satisfiesDifficulty (deriveHash b) b.header.difficulty = true →
       b.txs.all verifyTxSig = true →
       applySeq st b.txs = .ok st' →
       ¬ b.header.timestamp < p.header.timestamp →
       validateBlock b p st = .ok st')
    ∧ (∀ (c : Chain) (e : ValidationError),
       validateBlock b c.head c.state = .error e →
       (processBlock c b).1 = c) := by
  intro b p st
  refine ⟨?_, ?_, ?_, ?_, ?_, ?_, ?_, ?_⟩
  · intro h1
    simp [validateBlock, h1]
  · intro h1 h2
    simp [validateBlock, h1, h2]
  · intro h1 h2 h3
    simp [validateBlock, h1, h2, h3]
  · intro h1 h2 h3 h4
    simp [validateBlock, h1, h2, h3, h4]
  · intro e h1 h2 h3 h4 h5
    simp [validateBlock, h1, h2, h3, h4, h5]
  · intro st' h1 h2 h3 h4 h5 h6
    simp [validateBlock, h1, h2, h3, h4, h5, h6]
  · intro st' h1 h2 h3 h4 h5 h6
    simp [validateBlock, h1, h2, h3, h4, h5, h6]
  · intro c e h
    cases hv : validateBlock b c.head c.state with
    | error e' => simp [processBlock, hv]
    | ok st' => rw [hv] at h; exact Except.noConfusion h

theorem validate_check_order_witness :
    validateBlock demoBadLink demoGenesis [] = .error .badParentLink
    ∧ validateBlock demoBadNumber demoGenesis [] = .error .numberMismatch
    ∧ validateBlock demoLowWork demoGenesis [] = .error .insufficientWork
    ∧ validateBlock demoBadSig demoGenesis [] = .error .badSignature
    ∧ validateBlock demoBadNonce demoGenesis []
        = .error (txErrToValidation .nonceMismatch)
    ∧ validateBlock demoStaleTs demoLateParent [] = .error .staleTimestamp
    ∧ validateBlock demoGood demoGenesis [] = .ok []
    ∧ (processBlock demoChain demoBadNumber).1 = demoChain :=
  ⟨(validate_check_order demoBadLink demoGenesis []).1 (by decide),
   (validate_check_order demoBadNumber demoGenesis []).2.1 (by decide) (by decide),
   (validate_check_order demoLowWork demoGenesis []).2.2.1
     (by decide) (by decide) (by decide),
   (validate_check_order demoBadSig demoGenesis []).2.2.2.1
     (by decide) (by decide) (by decide) (by decide),
   (validate_check_order demoBadNonce demoGenesis []).2.2.2.2.1
     .nonceMismatch (by decide) (by decide) (by decide) (by decide) (by decide),
   (validate_check_order demoStaleTs demoLateParent []).2.2.2.2.2.1
     [] (by decide) (by decide) (by decide) (by decide) (by decide) (by decide),
   (validate_check_order demoGood demoGenesis []).2.2.2.2.2.2.1
     [] (by decide) (by decide) (by decide) (by decide) (by decide) (by decide),
   (validate_check_order demoBadNumber demoGenesis []).2.2.2.2.2.2.2
     demoChain .numberMismatch (by decide)⟩

/-- Claim C3: block hashing is deterministic — blocks with equal header
fields, and blocks with equal canonical header encodings, have
byte-identical derived hashes, and a receiving node recomputes exactly
the transmitted `derivedHash` of a wire record from its other fields. -/
theorem hash_deterministic :
    (∀ b1 b2 : Block, b1.header = b2.header → deriveHash b1 = deriveHash b2)
    ∧ (∀ b1 b2 : Block, encodeHeader b1.header = encodeHeader b2.header →
        deriveHash b1 = deriveHash b2)
    ∧ (∀ b : Block, wireRecompute (blockToWire b) = (blockToWire b).derivedHash) := by
  refine ⟨fun b1 b2 h => ?_, fun b1 b2 h => ?_, fun b => ?_⟩
  · simp [deriveHash, h]
  · simp [deriveHash, h]
  · obtain ⟨⟨n, p, t, pw, d, da, tr, m⟩, txs⟩ := b
    simp only [wireRecompute, blockToWire]

theorem hash_deterministic_witness :
    deriveHash ⟨demoGenesis.header, []⟩
      = deriveHash ⟨demoGenesis.header, [mkTx 1 2 3 4 0]⟩
    ∧ deriveHash ⟨demoLateParent.header, []⟩
      = deriveHash ⟨demoLateParent.header, [⟨1, 2, 3, 4, 5, 6⟩]⟩
    ∧ wireRecompute (blockToWire demoWireInput)
      = (blockToWire demoWireInput).derivedHash :=
  ⟨hash_deterministic.1 ⟨demoGenesis.header, []⟩
     ⟨demoGenesis.header, [mkTx 1 2 3 4 0]⟩ rfl,
   hash_deterministic.2.1 ⟨demoLateParent.header, []⟩
     ⟨demoLateParent.header, [⟨1, 2, 3, 4, 5, 6⟩]⟩ rfl,
   hash_deterministic.2.2 demoWireInput⟩

/-- Claim C4: a transaction whose nonce is not exactly the sender's
current account nonce at application time is rejected with NonceMismatch,
regardless of its position in a block; consequently the nonces a sender
gets applied form the gap-free strictly increasing range starting at its
account nonce. -/
theorem nonce_exact_match_required :
    (∀ (st : StateStore) (tx : Transaction),
       tx.nonce ≠ (getAccount st tx.sender).nonce →
       applyTransaction st tx = .error .nonceMismatch)
    ∧ (∀ (st : StateStore) (pre : List Transaction) (tx : Transaction)
         (post : List Transaction) (st1 : StateStore),
       applySeq st pre = .ok st1 →
       tx.nonce ≠ (getAccount st1 tx.sender).nonce →
       applySeq st (pre ++ tx :: post) = .error .nonceMismatch)
    ∧ (∀ (st : StateStore) (txs : List Transaction) (st' : StateStore) (a : Addr),
       applySeq st txs = .ok st' →
       (txs.filter (senderIs a)).map Transaction.nonce
         = List.range' (getAccount st a).nonce
             ((txs.filter (senderIs a)).length)) := by
  refine ⟨fun st tx h => applyTransaction_nonceMismatch st tx h, ?_,
    fun st txs st' a h => applySeq_ok_nonces txs st st' h a⟩
  intro st pre tx post st1 h1 h2
  rw [applySeq_append, h1]
  simp only [applySeq]
  rw [applyTransaction_nonceMismatch st1 tx h2]

theorem nonce_exact_match_required_witness :
    applyTransaction [] ⟨1, 2, 3, 4, 7, 0⟩ = .error .nonceMismatch
    ∧ applySeq demoFunded ([mkTx 1 2 100 10 0] ++ mkTx 1 2 1 1 5 :: [])
        = .error .nonceMismatch
    ∧ ([mkTx 1 2 100 10 0, mkTx 1 2 50 10 1].filter (senderIs 1)).map
          Transaction.nonce
        = List.range' (getAccount demoFunded 1).nonce
            (([mkTx 1 2 100 10 0, mkTx 1 2 50 10 1].filter (senderIs 1)).length) :=
  ⟨nonce_exact_match_required.1 [] ⟨1, 2, 3, 4, 7, 0⟩ (by decide),
   nonce_exact_match_required.2.1 demoFunded [mkTx 1 2 100 10 0]
     (mkTx 1 2 1 1 5) [] [(1, ⟨890, 1⟩), (2, ⟨100, 0⟩)] (by decide) (by decide),
   nonce_exact_match_required.2.2 demoFunded
     [mkTx 1 2 100 10 0, mkTx 1 2 50 10 1]
     [(1, ⟨830, 2⟩), (2, ⟨150, 0⟩)] 1 (by decide)⟩

/-- Claim C5: starting from a head with number 0, a successful addBlock
call with an empty transaction list advances the head to a block with
number 1 whose parentHash is the derived hash of block 0 (empty blocks
are permitted). -/
theorem addBlock_genesis_advance :
    ∀ (c : Chain) (data : List Nat) (cancel : Nat → Bool)
      (key diff now fuel : Nat) (c' : Chain) (b : Block),
      c.head.header.number = 0 →
      addBlock c data [] cancel key diff now fuel = some (c', .ok b) →
      c'.head = b ∧ c'.head.header.number = 1
        ∧ b.header.parentHash = deriveHash c.head := by
  intro c data cancel key diff now fuel c' b h0 h
  simp only [addBlock] at h
  cases hm : mineFrom (candidateHeader c data [] key diff now) [] cancel 0 fuel with
  | none => rw [hm] at h; exact Option.noConfusion h
  | some mr =>
    rw [hm] at h
    cases mr with
    | cancelled =>
      simp only [] at h
      injection h with h
      have h2 := congrArg Prod.snd h
      exact Except.noConfusion h2
    | found bm =>
      simp only [] at h
      cases hp : processBlock c bm with
      | mk c2 r2 =>
        rw [hp] at h
        cases r2 with
        | error e =>
          simp only [] at h
          injection h with h
          have h2 := congrArg Prod.snd h
          exact Except.noConfusion h2
        | ok b2 =>
          simp only [] at h
          injection h with h
          have hc2 := congrArg Prod.fst h
          have hb2 := congrArg Prod.snd h
          simp only [] at hc2 hb2
          injection hb2 with hb2
          obtain ⟨hhead, hbm⟩ := processBlock_ok_head c bm c2 b2 hp
          obtain ⟨htxs, hnum, hpar, hts, hdiff⟩ :=
            mineFrom_found_shape (candidateHeader c data [] key diff now) []
              cancel fuel 0 bm hm
          subst hc2
          subst hb2
          refine ⟨hhead, ?_, ?_⟩
          · rw [hhead, hbm, hnum]
            simp [candidateHeader, h0]
          · rw [hbm, hpar]
            simp [candidateHeader]

theorem addBlock_genesis_advance_witness :
    demoChain.head.header.number = 0
    ∧ (demoChain1.head = demoBlock1 ∧ demoChain1.head.header.number = 1
        ∧ demoBlock1.header.parentHash = deriveHash demoChain.head) :=
  ⟨rfl, addBlock_genesis_advance demoChain [1, 2] neverCancel 7 0 0 1
    demoChain1 demoBlock1 rfl (by decide)⟩

/-- Claim C6: when the cancellation signal is observed, the Mine
operation's outcome is the distinguished value `cancelled` — a normal
control-flow result of the `MineResult` type, which has no error
alternative, so cancellation is never surfaced as an error. -/
theorem mine_cancelled_outcome :
    ∀ (hdr : BlockHeader) (txs : List Transaction) (cancel : Nat → Bool)
      (i fuel : Nat), cancel i = true →
      mineFrom hdr txs cancel i (fuel + 1) = some MineResult.cancelled := by
  intro hdr txs cancel i fuel h
  simp [mineFrom, h]

theorem mine_cancelled_outcome_witness :
    mineFrom demoGenesis.header [] alwaysCancel 0 1 = some MineResult.cancelled :=
  mine_cancelled_outcome demoGenesis.header [] alwaysCancel 0 0 rfl

/-- Claim C7: every terminated addBlock call yields either the newly
accepted block — which is exactly the new head — or a failure of a
specific kind that leaves the chain unchanged; there is no outcome that
succeeds without yielding the accepted block. -/
theorem addBlock_outcome_dichotomy :
    ∀ (c : Chain) (data : List Nat) (txs : List Transaction)
      (cancel : Nat → Bool) (key diff now fuel : Nat)
      (res : Chain × Except AddBlockFailure Block),
      addBlock c data txs cancel key diff now fuel = some res →
      (exceptIsOk res.2 = true → res.2 = .ok res.1.head)
      ∧ (exceptIsOk res.2 = false → res.1 = c) := by
  intro c data txs cancel key diff now fuel res h
  simp only [addBlock] at h
  cases hm : mineFrom (candidateHeader c data txs key diff now) txs cancel 0 fuel with
  | none => rw [hm] at h; exact Option.noConfusion h
  | some mr =>
    rw [hm] at h
    cases mr with
    | cancelled =>
      simp only [] at h
      injection h with h
      subst h
      exact ⟨fun habs => by simp [exceptIsOk] at habs, fun _ => rfl⟩
    | found bm =>
      simp only [] at h
      cases hp : processBlock c bm with
      | mk c2 r2 =>
        rw [hp] at h
        cases r2 with
        | error e =>
          simp only [] at h
          injection h with h
          subst h
          have := processBlock_error_unchanged c bm c2 e hp
          exact ⟨fun habs => by simp [exceptIsOk] at habs, fun _ => this⟩
        | ok b2 =>
          simp only [] at h
          injection h with h
          subst h
          obtain ⟨hhead, hbm⟩ := processBlock_ok_head c bm c2 b2 hp
          exact ⟨fun _ => by rw [hhead], fun habs => by simp [exceptIsOk] at habs⟩

theorem addBlock_outcome_dichotomy_witness :
    (exceptIsOk demoRes.2 = true → demoRes.2 = .ok demoRes.1.head)
    ∧ (exceptIsOk demoRes.2 = false → demoRes.1 = demoChain) :=
  addBlock_outcome_dichotomy demoChain [1, 2] [] neverCancel 7 0 0 1
    demoRes (by decide)

theorem decodeBlock_encodeBlock (b : Block) :
    decodeBlock (encodeBlock b) = some b := by
  have h1 := decHeader_encodeHeader b.header
    (b.txs.length :: (b.txs.map encodeTx).flatten)
  have h2 := decTxs_encoded b.txs []
  rw [List.append_nil] at h2
  simp [decodeBlock, encodeBlock, h1, h2]

theorem decodeTransaction_encodeTx (tx : Transaction) :
    decodeTransaction (encodeTx tx) = some tx := by
  have h1 := decTx_encodeTx tx []
  rw [List.append_nil] at h1
  simp [decodeTransaction, h1]

/-- Claim C8: decoding the canonical encoding of a Block or a Transaction
yields an object whose re-encoding is byte-identical to the original
encoding — the encode-decode round trip is the identity on canonical
sequences. -/
theorem encode_decode_roundtrip :
    (∀ b : Block, decodeBlock (encodeBlock b) = some b)
    ∧ (∀ tx : Transaction, decodeTransaction (encodeTx tx) = some tx)
    ∧ (∀ (b b' : Block), decodeBlock (encodeBlock b) = some b' →
        encodeBlock b' = encodeBlock b)
    ∧ (∀ (tx tx' : Transaction), decodeTransaction (encodeTx tx) = some tx' →
        encodeTx tx' = encodeTx tx) := by
  refine ⟨decodeBlock_encodeBlock, decodeTransaction_encodeTx,
    fun b b' h => ?_, fun tx tx' h => ?_⟩
  · rw [decodeBlock_encodeBlock] at h
    injection h with h
    rw [h]
  · rw [decodeTransaction_encodeTx] at h
    injection h with h
    rw [h]

theorem encode_decode_roundtrip_witness :
    decodeBlock (encodeBlock demoWireInput) = some demoWireInput
    ∧ decodeTransaction (encodeTx (mkTx 1 2 3 4 0)) = some (mkTx 1 2 3 4 0)
    ∧ encodeBlock demoWireInput = encodeBlock demoWireInput
    ∧ encodeTx (mkTx 1 2 3 4 0) = encodeTx (mkTx 1 2 3 4 0) :=
  ⟨encode_decode_roundtrip.1 demoWireInput,
   encode_decode_roundtrip.2.1 (mkTx 1 2 3 4 0),
   encode_decode_roundtrip.2.2.1 demoWireInput demoWireInput (by decide),
   encode_decode_roundtrip.2.2.2 (mkTx 1 2 3 4 0) (mkTx 1 2 3 4 0) (by decide)⟩

/-- Claim C9: the start command's run function indexes its positional
argument list at position 0 unconditionally, so with zero positional
arguments it aborts with an out-of-range index instead of reporting a
usage error. -/
theorem startCmd_empty_args_aborts :
    startCmdRun [] = StartRunOutcome.indexOutOfRange
    ∧ startCmdRun [] ≠ StartRunOutcome.usageError := by
  exact ⟨rfl, by decide⟩

/-- Claim C10: the start command discards the error of parsing its
node-id argument, so every non-numeric argument starts the node with
nodeID 0 rather than failing; two distinct non-numeric arguments
therefore yield the same identity — database paths, ports and signer key
included. -/
theorem startCmd_discards_parse_error :
    ∀ (home s1 s2 : String),
      (goParseInt s1).2 = some ParseIntError.badInput →
      (goParseInt s2).2 = some ParseIntError.badInput →
      startCmdRun [s1] = .started 0
      ∧ startNodeConfig home (goParseInt s1).1
          = startNodeConfig home (goParseInt s2).1 := by
  intro home s1 s2 h1 h2
  have v1 := goParseInt_badInput_val s1 h1
  have v2 := goParseInt_badInput_val s2 h2
  constructor
  · simp [startCmdRun, v1]
  · rw [v1, v2]

theorem startCmd_discards_parse_error_witness :
    startCmdRun ["abc"] = StartRunOutcome.started 0
    ∧ startNodeConfig "/root" (goParseInt "abc").1
        = startNodeConfig "/root" (goParseInt "xyz").1 :=
  startCmd_discards_parse_error "/root" "abc" "xyz" (by decide) (by decide)

end CompatChain
